import Mathlib

/-!
Verification of the skills-detector repository.

This file gives a shallow embedding of the two core subsystems of the
repository — the pattern-matching detection engine (`src/index.ts`,
`src/detectors/*.ts`) and the relevance-filtering / curation engine
(`src/cli.ts`) — and proves properties of them.

Modelling conventions:
- the filesystem existence check `existsSync(join(cwd, file))` is an abstract
  boolean-valued function `fs : String → Bool` over relative paths;
- the parsed `package.json` is modelled by its dependency key lists (the only
  part detection reads); `Env.manifestFile = none` models an absent
  `package.json`, `some none` models content on which `JSON.parse` throws,
  and `some (some pj)` a successfully parsed manifest;
- JavaScript strings are modelled as Lean `String`s, with character-level
  operations (lowercasing, the word-boundary regex, `includes`) carried out
  on `String.toList`; `toLowerCase` is modelled on the ASCII range, which
  covers every string the program manipulates;
- the regex `(^|[^a-z])term([^a-z]|$)` built by `isRelevantSkill` (its
  dynamic part escaped by `escapeRegex`, hence matching `term` literally) is
  modelled by `wordBoundaryMatch`: some occurrence of the term bounded on
  both sides by a non-lowercase-letter character or the string edge.
-/

/-- ASCII model of JavaScript `String.prototype.toLowerCase` on one char. -/
def lowerChar (c : Char) : Char :=
  match c with
  | 'A' => 'a' | 'B' => 'b' | 'C' => 'c' | 'D' => 'd' | 'E' => 'e'
  | 'F' => 'f' | 'G' => 'g' | 'H' => 'h' | 'I' => 'i' | 'J' => 'j'
  | 'K' => 'k' | 'L' => 'l' | 'M' => 'm' | 'N' => 'n' | 'O' => 'o'
  | 'P' => 'p' | 'Q' => 'q' | 'R' => 'r' | 'S' => 's' | 'T' => 't'
  | 'U' => 'u' | 'V' => 'v' | 'W' => 'w' | 'X' => 'x' | 'Y' => 'y'
  | 'Z' => 'z' | c => c

/-- Model of `toLowerCase` on a character list. -/
def lowerList (s : List Char) : List Char := s.map lowerChar

/-- Model of `toLowerCase` on a string. -/
def lowerStr (s : String) : String := ⟨lowerList s.toList⟩

/-- The character class `[a-z]` of the word-boundary regex. -/
def isAsciiLowerAlpha (c : Char) : Bool := decide ('a' ≤ c) && decide (c ≤ 'z')

/-- The term `t` occurs in `r` starting at index `i`. -/
def matchesAt (r t : List Char) (i : Nat) : Bool :=
  decide (i + t.length ≤ r.length) && decide ((r.drop i).take t.length = t)

/-- Both regex boundaries around an occurrence at index `i`: the previous
character (if any) and the following character (if any) are outside `[a-z]`. -/
def boundaryOkAt (r t : List Char) (i : Nat) : Bool :=
  (decide (i = 0) || !isAsciiLowerAlpha (r.getD (i - 1) ' ')) &&
  (decide (i + t.length = r.length) || !isAsciiLowerAlpha (r.getD (i + t.length) ' '))

/-- Semantics of `new RegExp("(^|[^a-z])" + escapeRegex(t) + "([^a-z]|$)").test(r)`:
some occurrence of `t` in `r` is bounded by non-letters or the string edges. -/
def wordBoundaryMatch (r t : List Char) : Bool :=
  (List.range (r.length + 1)).any (fun i => matchesAt r t i && boundaryOkAt r t i)

/-- Semantics of JavaScript `big.includes(small)` (substring containment). -/
def containsSub (big small : List Char) : Bool :=
  (List.range (big.length + 1)).any (fun i => decide ((big.drop i).take small.length = small))

/-- Model of `includes` on strings. -/
def containsSubStr (big small : String) : Bool := containsSub big.toList small.toList

/-- The static `ECOSYSTEM_MARKERS` table of `src/cli.ts`. -/
def ECOSYSTEM_MARKERS : List (String × List String) :=
  [("expo", ["expo", "react-native", "mobile"]),
   ("react-native", ["expo", "react-native", "mobile"]),
   ("flutter", ["flutter", "dart"]),
   ("android", ["android", "kotlin", "gradle"]),
   ("ios", ["ios", "swift", "xcode", "cocoapods"]),
   ("unity", ["unity", "gamedev"])]

/-- The ecosystem-veto loop of `isRelevantSkill`: for every ecosystem, either
no marker of it occurs in the lowercased candidate, or the project uses the
ecosystem (some detected framework equals the ecosystem key, or its lowercase
form is itself one of the markers). -/
def ecosystemsOk (lowerRef : String) (detectedFrameworks : List String) : Bool :=
  ECOSYSTEM_MARKERS.all (fun em =>
    !(em.2.any (fun marker => containsSubStr lowerRef marker)) ||
    detectedFrameworks.any (fun fw => fw == em.1 || em.2.contains (lowerStr fw)))

/-- Embedding of `isRelevantSkill` from `src/cli.ts`: a word-boundary match of the term in
the candidate (with a plain-substring fallback for hyphenated terms), then the
ecosystem veto. -/
def isRelevantSkill (skillRef term : String) (detectedFrameworks : List String) : Bool :=
  let lowerRef := lowerStr skillRef
  let lowerTerm := lowerStr term
  let hasTermMatch := wordBoundaryMatch lowerRef.toList lowerTerm.toList
  (hasTermMatch || (lowerTerm.toList.contains '-' && containsSubStr lowerRef lowerTerm)) &&
  ecosystemsOk lowerRef detectedFrameworks

/-- Model of `ref.indexOf(c)`, with `none` for JavaScript's `-1`. -/
def charIndexOf : List Char → Char → Option Nat
  | [], _ => none
  | c :: cs, target => if c = target then some 0 else (charIndexOf cs target).map (· + 1)

/-- Embedding of `parseSkillRef` from `src/cli.ts`: split `owner/repo@skill` at the first
`@`; without an `@`, the whole reference is the source and the skill is empty. -/
def parseSkillRef (ref : List Char) : List Char × List Char :=
  match charIndexOf ref '@' with
  | none => (ref, [])
  | some i => (ref.take i, ref.drop (i + 1))

/-- The static `CURATED_SKILLS` table of `src/cli.ts`. -/
def CURATED_SKILLS : List (String × List String) :=
  [("nextjs",
    ["vercel-labs/next-skills@next-best-practices",
     "vercel-labs/next-skills@next-upgrade",
     "vercel-labs/agent-skills@vercel-react-best-practices"]),
   ("react", ["vercel-labs/agent-skills@vercel-react-best-practices"]),
   ("turborepo", ["vercel/turborepo@turborepo"])]

/-- Model of `Object.keys(CURATED_SKILLS)`. -/
def curatedKeys : List String := CURATED_SKILLS.map (·.1)

/-- Lookup `CURATED_SKILLS[term]`, `none` when the key is absent. -/
def curatedLookup (term : String) : Option (List String) :=
  (CURATED_SKILLS.find? (fun e => e.1 == term)).map (·.2)

/-- Dependency key lists of a parsed `package.json` (the only part the
detection engine reads; versions are never inspected). -/
structure PackageJson where
  dependencies : List String := []
  devDependencies : List String := []
deriving DecidableEq

/-- The project snapshot `detect` runs against: the filesystem existence
check, and the outcome of reading `package.json` (`none`: file absent;
`some none`: `JSON.parse` threw; `some (some pj)`: parsed). -/
structure Env where
  fs : String → Bool
  manifestFile : Option (Option PackageJson)

/-- Embedding of `loadPackageJson` from `src/index.ts`: an absent file and a parse
failure both silently yield `undefined`. -/
def loadPackageJson (env : Env) : Option PackageJson :=
  match env.manifestFile with
  | none => none
  | some parsed => parsed

/-- The merged key set `{...packageJson?.dependencies, ...packageJson?.devDependencies}`
(only key membership is ever used, so the list of keys suffices). -/
def mergedDependencies : Option PackageJson → List String
  | none => []
  | some pj => pj.dependencies ++ pj.devDependencies

/-- Embedding of `DetectionContext` from `src/types.ts`. -/
structure DetectionContext where
  fs : String → Bool
  allDependencies : List String

/-- The context `detect` builds from its environment. -/
def mkContext (env : Env) : DetectionContext :=
  { fs := env.fs, allDependencies := mergedDependencies (loadPackageJson env) }

/-- Embedding of `FrameworkPattern` from `src/types.ts`. -/
structure FrameworkPattern where
  name : String
  configFiles : Option (List String) := none
  dependencies : Option (List String) := none
  requiredFiles : Option (List String) := none
deriving DecidableEq

/-- Embedding of `ToolPattern` from `src/types.ts` (also used by the testing detector). -/
structure ToolPattern where
  name : String
  configFiles : Option (List String) := none
  dependencies : Option (List String) := none
  files : Option (List String) := none
deriving DecidableEq

/-- Embedding of `LanguagePattern` from the language detector. -/
structure LanguagePattern where
  name : String
  files : Option (List String) := none
  extensions : Option (List String) := none
  dependencies : Option (List String) := none
deriving DecidableEq

/-- An absent clause never matches; a `some files` clause matches when any
listed path exists. -/
def existsAnyFile (ctx : DetectionContext) : Option (List String) → Bool
  | some files => files.any ctx.fs
  | none => false

/-- An absent clause never matches; a `some files` clause matches when every
listed path exists. -/
def existsAllFiles (ctx : DetectionContext) : Option (List String) → Bool
  | some files => files.all ctx.fs
  | none => false

/-- An absent clause never matches; a `some names` clause matches when any
listed name is a key of the dependency mapping. -/
def hasAnyDependency (ctx : DetectionContext) : Option (List String) → Bool
  | some names => names.any (fun dep => ctx.allDependencies.contains dep)
  | none => false

/-- Embedding of `matchesPattern` from `src/detectors/frameworks.ts`: required files
(all), else config files (any), else dependencies (any). -/
def matchesPattern (pattern : FrameworkPattern) (ctx : DetectionContext) : Bool :=
  existsAllFiles ctx pattern.requiredFiles ||
  existsAnyFile ctx pattern.configFiles ||
  hasAnyDependency ctx pattern.dependencies

/-- Embedding of `matchesToolPattern` from `src/detectors/tools.ts`. -/
def matchesToolPattern (pattern : ToolPattern) (ctx : DetectionContext) : Bool :=
  existsAnyFile ctx pattern.configFiles ||
  existsAnyFile ctx pattern.files ||
  hasAnyDependency ctx pattern.dependencies

/-- Embedding of `matchesTestingPattern`, textually identical to the tool matcher. -/
def matchesTestingPattern (pattern : ToolPattern) (ctx : DetectionContext) : Bool :=
  existsAnyFile ctx pattern.configFiles ||
  existsAnyFile ctx pattern.files ||
  hasAnyDependency ctx pattern.dependencies

/-- The file loop of `matchesLanguagePattern`: a path containing `*` is
skipped (`continue`), any other existing path matches. -/
def languageFilesLoop (ctx : DetectionContext) : List String → Bool
  | [] => false
  | file :: rest =>
    if file.toList.contains '*' then languageFilesLoop ctx rest
    else if ctx.fs file then true
    else languageFilesLoop ctx rest

/-- The file clause of the language matcher. -/
def languageFilesClause (ctx : DetectionContext) : Option (List String) → Bool
  | some files => languageFilesLoop ctx files
  | none => false

/-- Embedding of `matchesLanguagePattern` from the language detector. -/
def matchesLanguagePattern (pattern : LanguagePattern) (ctx : DetectionContext) : Bool :=
  languageFilesClause ctx pattern.files ||
  hasAnyDependency ctx pattern.dependencies

/-- The table `FRAMEWORK_PATTERNS` from `src/detectors/frameworks.ts`, in declaration order. -/
def FRAMEWORK_PATTERNS : List FrameworkPattern :=
  [{ name := "nextjs",
     configFiles := some ["next.config.js", "next.config.ts", "next.config.mjs", "next.config.cjs"],
     dependencies := some ["next"] },
   { name := "remix",
     configFiles := some ["remix.config.js", "remix.config.ts"],
     dependencies := some ["@remix-run/react", "@remix-run/node"] },
   { name := "astro",
     configFiles := some ["astro.config.mjs", "astro.config.ts", "astro.config.js"],
     dependencies := some ["astro"] },
   { name := "nuxt",
     configFiles := some ["nuxt.config.js", "nuxt.config.ts"],
     dependencies := some ["nuxt", "nuxt3"] },
   { name := "sveltekit",
     configFiles := some ["svelte.config.js", "svelte.config.ts"],
     dependencies := some ["@sveltejs/kit"] },
   { name := "svelte", dependencies := some ["svelte"] },
   { name := "vue",
     configFiles := some ["vue.config.js"],
     dependencies := some ["vue", "@vue/cli-service"] },
   { name := "angular",
     configFiles := some ["angular.json"],
     dependencies := some ["@angular/core"] },
   { name := "gatsby",
     configFiles := some ["gatsby-config.js", "gatsby-config.ts"],
     dependencies := some ["gatsby"] },
   { name := "vite", dependencies := some ["vite"] },
   { name := "express", dependencies := some ["express"] },
   { name := "fastify", dependencies := some ["fastify"] },
   { name := "hono", dependencies := some ["hono"] },
   { name := "elysia", dependencies := some ["elysia"] },
   { name := "nest", dependencies := some ["@nestjs/core"] },
   { name := "react", dependencies := some ["react", "react-dom"] },
   { name := "django",
     configFiles := some ["manage.py"],
     requiredFiles := some ["manage.py"] },
   { name := "flask", configFiles := some ["app.py"] },
   { name := "fastapi", configFiles := some ["main.py"] },
   { name := "rails",
     configFiles := some ["config/application.rb"],
     requiredFiles := some ["Gemfile", "config/application.rb"] },
   { name := "sinatra" },
   { name := "gin" },
   { name := "echo" },
   { name := "fiber" },
   { name := "actix" },
   { name := "axum" },
   { name := "rocket" },
   { name := "spring", configFiles := some ["pom.xml", "build.gradle", "build.gradle.kts"] }]

/-- The table `LANGUAGE_PATTERNS` from the language detector, in declaration order. -/
def LANGUAGE_PATTERNS : List LanguagePattern :=
  [{ name := "typescript",
     files := some ["tsconfig.json", "tsconfig.base.json"],
     dependencies := some ["typescript"] },
   { name := "javascript", files := some ["package.json", "jsconfig.json"] },
   { name := "python",
     files := some ["requirements.txt", "pyproject.toml", "setup.py", "Pipfile", "poetry.lock"] },
   { name := "ruby", files := some ["Gemfile", "Gemfile.lock", ".ruby-version"] },
   { name := "go", files := some ["go.mod", "go.sum"] },
   { name := "rust", files := some ["Cargo.toml", "Cargo.lock"] },
   { name := "java", files := some ["pom.xml", "build.gradle"] },
   { name := "kotlin", files := some ["build.gradle.kts"] },
   { name := "swift", files := some ["Package.swift", "*.xcodeproj", "*.xcworkspace"] },
   { name := "php", files := some ["composer.json", "composer.lock"] },
   { name := "csharp", files := some ["*.csproj", "*.sln"] },
   { name := "elixir", files := some ["mix.exs", "mix.lock"] },
   { name := "scala", files := some ["build.sbt"] },
   { name := "clojure", files := some ["project.clj", "deps.edn"] },
   { name := "haskell", files := some ["stack.yaml", "cabal.project"] },
   { name := "zig", files := some ["build.zig"] }]

/-- The table `TOOL_PATTERNS` from `src/detectors/tools.ts`, in declaration order. -/
def TOOL_PATTERNS : List ToolPattern :=
  [{ name := "prisma",
     configFiles := some ["prisma/schema.prisma"],
     dependencies := some ["prisma", "@prisma/client"] },
   { name := "drizzle",
     configFiles := some ["drizzle.config.ts", "drizzle.config.js"],
     dependencies := some ["drizzle-orm"] },
   { name := "typeorm", dependencies := some ["typeorm"] },
   { name := "sequelize", dependencies := some ["sequelize"] },
   { name := "mongoose", dependencies := some ["mongoose"] },
   { name := "kysely", dependencies := some ["kysely"] },
   { name := "tailwind",
     configFiles := some ["tailwind.config.js", "tailwind.config.ts",
                          "tailwind.config.mjs", "tailwind.config.cjs"],
     dependencies := some ["tailwindcss"] },
   { name := "styled-components", dependencies := some ["styled-components"] },
   { name := "emotion", dependencies := some ["@emotion/react", "@emotion/styled"] },
   { name := "sass", dependencies := some ["sass", "node-sass"] },
   { name := "less", dependencies := some ["less"] },
   { name := "webpack",
     configFiles := some ["webpack.config.js", "webpack.config.ts"],
     dependencies := some ["webpack"] },
   { name := "esbuild", dependencies := some ["esbuild"] },
   { name := "rollup",
     configFiles := some ["rollup.config.js", "rollup.config.ts"],
     dependencies := some ["rollup"] },
   { name := "turbopack",
     dependencies := some ["@serwist/turbopack", "@vercel/turbopack", "turbopack"] },
   { name := "turborepo",
     configFiles := some ["turbo.json"],
     dependencies := some ["turbo"] },
   { name := "redux", dependencies := some ["redux", "@reduxjs/toolkit"] },
   { name := "zustand", dependencies := some ["zustand"] },
   { name := "jotai", dependencies := some ["jotai"] },
   { name := "recoil", dependencies := some ["recoil"] },
   { name := "mobx", dependencies := some ["mobx"] },
   { name := "graphql", dependencies := some ["graphql", "@apollo/client", "urql"] },
   { name := "trpc", dependencies := some ["@trpc/server", "@trpc/client"] },
   { name := "tanstack-query", dependencies := some ["@tanstack/react-query", "react-query"] },
   { name := "swr", dependencies := some ["swr"] },
   { name := "axios", dependencies := some ["axios"] },
   { name := "nextauth", dependencies := some ["next-auth"] },
   { name := "clerk", dependencies := some ["@clerk/nextjs", "@clerk/clerk-react"] },
   { name := "auth0", dependencies := some ["@auth0/nextjs-auth0", "@auth0/auth0-react"] },
   { name := "supabase",
     dependencies := some ["@supabase/supabase-js", "@supabase/auth-helpers-nextjs"] },
   { name := "firebase", dependencies := some ["firebase", "firebase-admin"] },
   { name := "docker",
     configFiles := some ["Dockerfile", "docker-compose.yml", "docker-compose.yaml"] },
   { name := "kubernetes", files := some ["k8s/", "kubernetes/", "helm/"] },
   { name := "terraform", files := some ["main.tf", "terraform/"] },
   { name := "pulumi", configFiles := some ["Pulumi.yaml"] },
   { name := "eslint",
     configFiles := some [".eslintrc", ".eslintrc.js", ".eslintrc.json", "eslint.config.js"],
     dependencies := some ["eslint"] },
   { name := "prettier",
     configFiles := some [".prettierrc", ".prettierrc.js", ".prettierrc.json", "prettier.config.js"],
     dependencies := some ["prettier"] },
   { name := "biome",
     configFiles := some ["biome.json", "biome.jsonc"],
     dependencies := some ["@biomejs/biome"] },
   { name := "nx", configFiles := some ["nx.json"], dependencies := some ["nx"] },
   { name := "lerna", configFiles := some ["lerna.json"], dependencies := some ["lerna"] },
   { name := "changesets",
     files := some [".changeset/"],
     dependencies := some ["@changesets/cli"] },
   { name := "storybook",
     files := some [".storybook/"],
     dependencies := some ["@storybook/react", "storybook"] },
   { name := "docusaurus", dependencies := some ["@docusaurus/core"] },
   { name := "openai", dependencies := some ["openai"] },
   { name := "anthropic", dependencies := some ["@anthropic-ai/sdk"] },
   { name := "langchain", dependencies := some ["langchain", "@langchain/core"] },
   { name := "vercel-ai", dependencies := some ["ai"] }]

/-- The table `TESTING_PATTERNS` from the testing detector, in declaration order. -/
def TESTING_PATTERNS : List ToolPattern :=
  [{ name := "vitest",
     configFiles := some ["vitest.config.ts", "vitest.config.js", "vitest.config.mjs"],
     dependencies := some ["vitest"] },
   { name := "jest",
     configFiles := some ["jest.config.js", "jest.config.ts", "jest.config.json"],
     dependencies := some ["jest"] },
   { name := "mocha",
     configFiles := some [".mocharc.js", ".mocharc.json", ".mocharc.yaml"],
     dependencies := some ["mocha"] },
   { name := "ava", dependencies := some ["ava"] },
   { name := "tap", dependencies := some ["tap"] },
   { name := "playwright",
     configFiles := some ["playwright.config.ts", "playwright.config.js"],
     dependencies := some ["@playwright/test", "playwright"] },
   { name := "cypress",
     configFiles := some ["cypress.config.ts", "cypress.config.js", "cypress.json"],
     dependencies := some ["cypress"] },
   { name := "puppeteer", dependencies := some ["puppeteer"] },
   { name := "selenium", dependencies := some ["selenium-webdriver"] },
   { name := "testing-library",
     dependencies := some ["@testing-library/react", "@testing-library/vue",
                           "@testing-library/svelte", "@testing-library/dom"] },
   { name := "enzyme", dependencies := some ["enzyme"] },
   { name := "pytest",
     configFiles := some ["pytest.ini", "pyproject.toml"],
     files := some ["tests/", "test/"] },
   { name := "unittest" },
   { name := "rspec", files := some ["spec/", ".rspec"] },
   { name := "minitest", files := some ["test/"] },
   { name := "go-test" },
   { name := "cargo-test" }]

/-- The framework detector loop: push each matching pattern's name in order. -/
def detectFrameworks (ctx : DetectionContext) : List String :=
  (FRAMEWORK_PATTERNS.filter (fun p => matchesPattern p ctx)).map (fun p => p.name)

/-- The language detector loop. -/
def detectLanguages (ctx : DetectionContext) : List String :=
  (LANGUAGE_PATTERNS.filter (fun p => matchesLanguagePattern p ctx)).map (fun p => p.name)

/-- The tool detector loop, before the supersession step. -/
def detectToolsRaw (ctx : DetectionContext) : List String :=
  (TOOL_PATTERNS.filter (fun p => matchesToolPattern p ctx)).map (fun p => p.name)

/-- The testing detector loop. -/
def detectTesting (ctx : DetectionContext) : List String :=
  (TESTING_PATTERNS.filter (fun p => matchesTestingPattern p ctx)).map (fun p => p.name)

/-- First supersession rule of `detectTools`: when both are present, drop
`webpack` in favour of `turbopack`. -/
def excludeWebpack (detected : List String) : List String :=
  if detected.contains "turbopack" && detected.contains "webpack" then
    detected.filter (fun t => t != "webpack")
  else detected

/-- Second supersession rule of `detectTools`: when `biome` is present, drop
both `eslint` and `prettier`. -/
def excludeEslintPrettier (detected : List String) : List String :=
  if detected.contains "biome" then
    detected.filter (fun t => t != "eslint" && t != "prettier")
  else detected

/-- The supersession filter applied at the end of `detectTools`. -/
def supersedeTools (detected : List String) : List String :=
  excludeEslintPrettier (excludeWebpack detected)

/-- Embedding of `detectTools` from `src/detectors/tools.ts`: detect, then supersede. -/
def detectTools (ctx : DetectionContext) : List String :=
  supersedeTools (detectToolsRaw ctx)

/-- Insertion-order deduplication, the semantics of `[...new Set(list)]`. -/
def insertUniq (acc : List String) (x : String) : List String :=
  if acc.contains x then acc else acc ++ [x]

/-- Semantics of `[...new Set(list)]`. -/
def dedupFirst (l : List String) : List String := l.foldl insertUniq []

/-- Lexicographic comparison of character lists by code point, the order of
JavaScript's default `Array.prototype.sort` on these ASCII strings. -/
def charListLe : List Char → List Char → Bool
  | [], _ => true
  | _ :: _, [] => false
  | a :: as, b :: bs =>
    if a.toNat < b.toNat then true
    else if b.toNat < a.toNat then false
    else charListLe as bs

/-- String comparison used for `searchTerms` sorting. -/
def strLe (a b : String) : Bool := charListLe a.toList b.toList

/-- Insert into a sorted list. -/
def insertSorted (x : String) : List String → List String
  | [] => [x]
  | y :: ys => if strLe x y then x :: y :: ys else y :: insertSorted x ys

/-- Sort a list of strings lexicographically (the post-`Set` elements are
pairwise distinct, so any comparison sort produces this same list). -/
def sortStrings : List String → List String
  | [] => []
  | x :: xs => insertSorted x (sortStrings xs)

/-- Embedding of `DetectionResult` from `src/types.ts`. -/
structure DetectionResult where
  frameworks : List String
  languages : List String
  tools : List String
  testing : List String
  searchTerms : List String
deriving DecidableEq

/-- Embedding of `detect` from `src/index.ts`: build the context, run the four detectors,
and combine their outputs into the deduplicated, sorted `searchTerms`. -/
def detect (env : Env) : DetectionResult :=
  let ctx := mkContext env
  let frameworks := detectFrameworks ctx
  let languages := detectLanguages ctx
  let tools := detectTools ctx
  let testing := detectTesting ctx
  { frameworks, languages, tools, testing,
    searchTerms := sortStrings (dedupFirst (frameworks ++ languages ++ tools ++ testing)) }

/-- One iteration of the curated-skills loop of `main` in `src/cli.ts`:
append the term's curated references when the table has the term. -/
def curatedStep (acc : List String) (term : String) : List String :=
  match curatedLookup term with
  | some refs => acc ++ refs
  | none => acc

/-- The curated-skills pass of `main` in `src/cli.ts`: for each detected
framework and tool, in order, append its curated references (if any). -/
def curatedRefs (detected : DetectionResult) : List String :=
  (detected.frameworks ++ detected.tools).foldl curatedStep []

/-- The curated-term filter of `main` in `src/cli.ts`: the detected search
terms minus those having a curated entry. -/
def afterCuratedTerms (detected : DetectionResult) : List String :=
  detected.searchTerms.filter (fun term => !(curatedKeys.contains term))

/-- The search-term filtering of `main` in `src/cli.ts`: drop curated terms,
then drop the generic language terms (`javascript`/`typescript` when any
framework was detected; `javascript` when `typescript` is present and no
framework was). The result is the list of terms actually searched externally. -/
def plannedSearchTerms (detected : DetectionResult) : List String :=
  if !detected.frameworks.isEmpty then
    (afterCuratedTerms detected).filter (fun term => term != "javascript" && term != "typescript")
  else if (afterCuratedTerms detected).contains "typescript" then
    (afterCuratedTerms detected).filter (fun term => term != "javascript")
  else afterCuratedTerms detected

/-- The no-framework, no-typescript skip condition, phrased on the report:
which searched terms are silently dropped by the language-term filtering. -/
def skippedLanguageTerm (detected : DetectionResult) (term : String) : Prop :=
  (detected.frameworks ≠ [] ∧ (term = "javascript" ∨ term = "typescript")) ∨
  (detected.frameworks = [] ∧ term = "javascript" ∧ "typescript" ∈ detected.searchTerms)

theorem contains_iff_mem {l : List String} {a : String} : l.contains a = true ↔ a ∈ l := by
  simp [List.contains, List.elem_iff]

theorem charListLe_total (x y : List Char) : charListLe x y = true ∨ charListLe y x = true := by
  induction x generalizing y with
  | nil => exact Or.inl rfl
  | cons a as ih =>
    cases y with
    | nil => exact Or.inr rfl
    | cons b bs =>
      by_cases h1 : a.toNat < b.toNat
      · exact Or.inl (by simp [charListLe, h1])
      · by_cases h2 : b.toNat < a.toNat
        · exact Or.inr (by simp [charListLe, h2])
        · rcases ih bs with h | h
          · exact Or.inl (by simp [charListLe, h1, h2, h])
          · exact Or.inr (by simp [charListLe, h1, h2, h])

theorem charListLe_trans {x y z : List Char} (hxy : charListLe x y = true)
    (hyz : charListLe y z = true) : charListLe x z = true := by
  induction x generalizing y z with
  | nil => rfl
  | cons a as ih =>
    cases y with
    | nil => simp [charListLe] at hxy
    | cons b bs =>
      cases z with
      | nil => simp [charListLe] at hyz
      | cons c cs =>
        simp only [charListLe] at hxy hyz ⊢
        rcases Nat.lt_trichotomy a.toNat b.toNat with hab | hab | hab
        · rcases Nat.lt_trichotomy b.toNat c.toNat with hbc | hbc | hbc
          · have hac : a.toNat < c.toNat := Nat.lt_trans hab hbc
            simp [hac]
          · have hac : a.toNat < c.toNat := by omega
            simp [hac]
          · have h1 : ¬ b.toNat < c.toNat := by omega
            simp [h1, hbc] at hyz
        · have h1 : ¬ a.toNat < b.toNat := by omega
          have h2 : ¬ b.toNat < a.toNat := by omega
          simp only [h1, h2, if_false] at hxy
          rcases Nat.lt_trichotomy b.toNat c.toNat with hbc | hbc | hbc
          · have hac : a.toNat < c.toNat := by omega
            simp [hac]
          · have h3 : ¬ b.toNat < c.toNat := by omega
            have h4 : ¬ c.toNat < b.toNat := by omega
            simp only [h3, h4, if_false] at hyz
            have h5 : ¬ a.toNat < c.toNat := by omega
            have h6 : ¬ c.toNat < a.toNat := by omega
            simp only [h5, h6, if_false]
            exact ih hxy hyz
          · have h3 : ¬ b.toNat < c.toNat := by omega
            simp [h3, hbc] at hyz
        · have h1 : ¬ a.toNat < b.toNat := by omega
          simp [h1, hab] at hxy

theorem strLe_total (a b : String) : strLe a b = true ∨ strLe b a = true :=
  charListLe_total a.toList b.toList

theorem strLe_trans {a b c : String} (h1 : strLe a b = true) (h2 : strLe b c = true) :
    strLe a c = true :=
  charListLe_trans h1 h2

theorem insertSorted_perm (x : String) (l : List String) :
    (insertSorted x l).Perm (x :: l) := by
  induction l with
  | nil => exact List.Perm.refl _
  | cons y ys ih =>
    by_cases h : strLe x y = true
    · simp [insertSorted, h]
    · simp only [insertSorted, h, if_false]
      exact (ih.cons y).trans (List.Perm.swap x y ys)

theorem sortStrings_perm (l : List String) : (sortStrings l).Perm l := by
  induction l with
  | nil => exact List.Perm.refl _
  | cons x xs ih =>
    exact (insertSorted_perm x (sortStrings xs)).trans (ih.cons x)

theorem mem_insertSorted {x y : String} {l : List String} :
    y ∈ insertSorted x l ↔ y = x ∨ y ∈ l := by
  rw [(insertSorted_perm x l).mem_iff]
  simp

theorem pairwise_insertSorted {x : String} {l : List String}
    (h : l.Pairwise (fun a b => strLe a b = true)) :
    (insertSorted x l).Pairwise (fun a b => strLe a b = true) := by
  induction l with
  | nil => simp [insertSorted]
  | cons y ys ih =>
    rcases List.pairwise_cons.mp h with ⟨hy, hys⟩
    by_cases hxy : strLe x y = true
    · simp only [insertSorted, hxy, if_true]
      refine List.pairwise_cons.mpr ⟨?_, h⟩
      intro b hb
      rcases List.mem_cons.mp hb with rfl | hb
      · exact hxy
      · exact strLe_trans hxy (hy b hb)
    · have hyx : strLe y x = true := by
        rcases strLe_total x y with h' | h'
        · exact absurd h' hxy
        · exact h'
      simp only [insertSorted, hxy, if_false]
      refine List.pairwise_cons.mpr ⟨?_, ih hys⟩
      intro b hb
      rcases mem_insertSorted.mp hb with rfl | hb
      · exact hyx
      · exact hy b hb

theorem sortStrings_pairwise (l : List String) :
    (sortStrings l).Pairwise (fun a b => strLe a b = true) := by
  induction l with
  | nil => simp [sortStrings]
  | cons x xs ih => exact pairwise_insertSorted ih

theorem mem_insertUniq {acc : List String} {x a : String} :
    a ∈ insertUniq acc x ↔ a ∈ acc ∨ a = x := by
  unfold insertUniq
  split
  next hx =>
    have hmem : x ∈ acc := contains_iff_mem.mp hx
    constructor
    · exact Or.inl
    · rintro (h | rfl)
      · exact h
      · exact hmem
  next hx => simp

theorem mem_foldl_insertUniq (l : List String) :
    ∀ (acc : List String) (a : String), a ∈ l.foldl insertUniq acc ↔ a ∈ acc ∨ a ∈ l := by
  induction l with
  | nil => simp
  | cons x xs ih =>
    intro acc a
    rw [List.foldl_cons, ih, mem_insertUniq, List.mem_cons]
    tauto

theorem nodup_insertUniq {acc : List String} {x : String} (h : acc.Nodup) :
    (insertUniq acc x).Nodup := by
  unfold insertUniq
  split
  next hx => exact h
  next hx =>
    have hnm : x ∉ acc := fun hm => hx (contains_iff_mem.mpr hm)
    refine List.nodup_append.mpr ⟨h, List.nodup_singleton x, ?_⟩
    intro a ha hb
    rw [List.mem_singleton] at hb
    exact hnm (hb ▸ ha)

theorem nodup_foldl_insertUniq (l : List String) :
    ∀ acc : List String, acc.Nodup → (l.foldl insertUniq acc).Nodup := by
  induction l with
  | nil => exact fun acc h => h
  | cons x xs ih =>
    intro acc hacc
    rw [List.foldl_cons]
    exact ih _ (nodup_insertUniq hacc)

theorem mem_dedupFirst {l : List String} {a : String} : a ∈ dedupFirst l ↔ a ∈ l := by
  unfold dedupFirst
  rw [mem_foldl_insertUniq]
  simp

theorem nodup_dedupFirst (l : List String) : (dedupFirst l).Nodup :=
  nodup_foldl_insertUniq l [] List.nodup_nil

theorem mem_sortStrings {l : List String} {a : String} : a ∈ sortStrings l ↔ a ∈ l :=
  (sortStrings_perm l).mem_iff

theorem detect_searchTerms_def (env : Env) :
    (detect env).searchTerms =
      sortStrings (dedupFirst ((detect env).frameworks ++ (detect env).languages ++
        (detect env).tools ++ (detect env).testing)) := rfl

/-- C3: for every environment, the `searchTerms` field of `detect`'s report is
the duplicate-free union of the `frameworks`, `languages`, `tools` and
`testing` lists, sorted lexicographically. -/
theorem c3_searchTerms_sorted_dedup_union (env : Env) :
    (detect env).searchTerms.Pairwise (fun a b => strLe a b = true) ∧
    (detect env).searchTerms.Nodup ∧
    ∀ a : String, a ∈ (detect env).searchTerms ↔
      (a ∈ (detect env).frameworks ∨ a ∈ (detect env).languages ∨
       a ∈ (detect env).tools ∨ a ∈ (detect env).testing) := by
  refine ⟨?_, ?_, ?_⟩
  · rw [detect_searchTerms_def]
    exact sortStrings_pairwise _
  · rw [detect_searchTerms_def]
    exact ((sortStrings_perm _).nodup_iff).mpr (nodup_dedupFirst _)
  · intro a
    rw [detect_searchTerms_def, mem_sortStrings, mem_dedupFirst]
    simp [List.mem_append, or_assoc]

/-- Witness for C3 at a concrete Go project. -/
theorem c3_witness :
    "go" ∈ (detect ⟨fun s => ["go.mod"].contains s, none⟩).searchTerms ↔
      ("go" ∈ (detect ⟨fun s => ["go.mod"].contains s, none⟩).frameworks ∨
       "go" ∈ (detect ⟨fun s => ["go.mod"].contains s, none⟩).languages ∨
       "go" ∈ (detect ⟨fun s => ["go.mod"].contains s, none⟩).tools ∨
       "go" ∈ (detect ⟨fun s => ["go.mod"].contains s, none⟩).testing) :=
  (c3_searchTerms_sorted_dedup_union _).2.2 "go"

/-- C4: the framework matcher's clause semantics. A declared `requiredFiles`
clause whose paths all exist matches irrespective of the other two clauses;
when it fails, the marker-file (`configFiles`, any) and dependency (any)
clauses still apply; a rule matches exactly when one of the three clauses
succeeds (an absent clause never does). -/
theorem c4_framework_clause_semantics (ctx : DetectionContext) (p : FrameworkPattern) :
    (∀ req, p.requiredFiles = some req → req.all ctx.fs = true →
      ∀ cf dep, matchesPattern { p with configFiles := cf, dependencies := dep } ctx = true) ∧
    (∀ req, p.requiredFiles = some req → req.all ctx.fs = false →
      (matchesPattern p ctx = true ↔
        (existsAnyFile ctx p.configFiles = true ∨ hasAnyDependency ctx p.dependencies = true))) ∧
    (matchesPattern p ctx = true ↔
      (existsAllFiles ctx p.requiredFiles = true ∨ existsAnyFile ctx p.configFiles = true ∨
       hasAnyDependency ctx p.dependencies = true)) := by
  refine ⟨?_, ?_, ?_⟩
  · intro req hreq hall cf dep
    simp [matchesPattern, existsAllFiles, hreq, hall]
  · intro req hreq hnall
    simp [matchesPattern, existsAllFiles, hreq, hnall]
  · simp [matchesPattern, Bool.or_eq_true, or_assoc]

/-- Witness for C4: the `rails` rule matches through its `requiredFiles`
clause alone when both required paths exist. -/
theorem c4_witness :
    matchesPattern
      { name := "rails", configFiles := none, dependencies := none,
        requiredFiles := some ["Gemfile", "config/application.rb"] }
      ⟨fun s => ["Gemfile", "config/application.rb"].contains s, []⟩ = true :=
  (c4_framework_clause_semantics
      ⟨fun s => ["Gemfile", "config/application.rb"].contains s, []⟩
      { name := "rails", configFiles := some ["config/application.rb"],
        requiredFiles := some ["Gemfile", "config/application.rb"] }).1
    _ rfl (by decide) none none

theorem mem_of_mem_excludeWebpack {a : String} {l : List String}
    (h : a ∈ excludeWebpack l) : a ∈ l := by
  unfold excludeWebpack at h
  split at h
  · exact List.mem_of_mem_filter h
  · exact h

theorem mem_of_mem_excludeEslintPrettier {a : String} {l : List String}
    (h : a ∈ excludeEslintPrettier l) : a ∈ l := by
  unfold excludeEslintPrettier at h
  split at h
  · exact List.mem_of_mem_filter h
  · exact h

theorem not_webpack_mem_excludeWebpack {l : List String}
    (ht : "turbopack" ∈ l) (hw : "webpack" ∈ l) : "webpack" ∉ excludeWebpack l := by
  unfold excludeWebpack
  have hcond : (l.contains "turbopack" && l.contains "webpack") = true := by
    rw [Bool.and_eq_true]
    exact ⟨contains_iff_mem.mpr ht, contains_iff_mem.mpr hw⟩
  rw [if_pos hcond]
  intro hmem
  have h2 := (List.mem_filter.mp hmem).2
  simp at h2

theorem excludeWebpack_supersedeTools (x : List String) :
    excludeWebpack (supersedeTools x) = supersedeTools x := by
  unfold excludeWebpack
  split
  next hcond =>
    rw [Bool.and_eq_true] at hcond
    obtain ⟨ht, hw⟩ := hcond
    rw [contains_iff_mem] at ht hw
    have hw2 : "webpack" ∈ excludeWebpack x := mem_of_mem_excludeEslintPrettier hw
    have ht2 : "turbopack" ∈ x :=
      mem_of_mem_excludeWebpack (mem_of_mem_excludeEslintPrettier ht)
    have hw3 : "webpack" ∈ x := mem_of_mem_excludeWebpack hw2
    exact absurd hw2 (not_webpack_mem_excludeWebpack ht2 hw3)
  next hcond => rfl

theorem excludeEslintPrettier_idem (l : List String) :
    excludeEslintPrettier (excludeEslintPrettier l) = excludeEslintPrettier l := by
  by_cases hc : l.contains "biome" = true
  · have hl : excludeEslintPrettier l =
        l.filter (fun t => t != "eslint" && t != "prettier") := by
      unfold excludeEslintPrettier
      rw [if_pos hc]
    rw [hl]
    have hc2 : (l.filter (fun t => t != "eslint" && t != "prettier")).contains "biome" = true := by
      rw [contains_iff_mem] at hc ⊢
      exact List.mem_filter.mpr ⟨hc, by decide⟩
    unfold excludeEslintPrettier
    rw [if_pos hc2, List.filter_filter]
    congr 1
    funext a
    exact Bool.and_self _
  · have hl : excludeEslintPrettier l = l := by
      unfold excludeEslintPrettier
      rw [if_neg hc]
    rw [hl, hl]

/-- C6: the supersession filter appended to `detectTools` is idempotent on
every list of tool names. -/
theorem c6_supersession_idempotent (x : List String) :
    supersedeTools (supersedeTools x) = supersedeTools x := by
  show excludeEslintPrettier (excludeWebpack (supersedeTools x)) = supersedeTools x
  rw [excludeWebpack_supersedeTools]
  show excludeEslintPrettier (excludeEslintPrettier (excludeWebpack x)) = supersedeTools x
  rw [excludeEslintPrettier_idem]
  rfl

theorem mem_excludeWebpack_of_ne {a : String} {l : List String}
    (h : a ∈ l) (hne : (a != "webpack") = true) : a ∈ excludeWebpack l := by
  unfold excludeWebpack
  split
  · exact List.mem_filter.mpr ⟨h, hne⟩
  · exact h

theorem mem_excludeEslintPrettier_of_ne {a : String} {l : List String}
    (h : a ∈ l) (hne : (a != "eslint" && a != "prettier") = true) :
    a ∈ excludeEslintPrettier l := by
  unfold excludeEslintPrettier
  split
  · exact List.mem_filter.mpr ⟨h, hne⟩
  · exact h

/-- C7: whenever `biome` is among the detected tools, neither `eslint` nor
`prettier` survives into the final tools list; whenever both `turbopack` and
`webpack` are detected, the final list keeps `turbopack` and drops `webpack`
— in both cases regardless of what other markers the context has. -/
theorem c7_supersession_outcomes (ctx₁ ctx₂ : DetectionContext)
    (h₁ : "biome" ∈ detectToolsRaw ctx₁)
    (h₂ : "turbopack" ∈ detectToolsRaw ctx₂)
    (h₃ : "webpack" ∈ detectToolsRaw ctx₂) :
    ("eslint" ∉ detectTools ctx₁ ∧ "prettier" ∉ detectTools ctx₁) ∧
    ("turbopack" ∈ detectTools ctx₂ ∧ "webpack" ∉ detectTools ctx₂) := by
  constructor
  · have hbz : "biome" ∈ excludeWebpack (detectToolsRaw ctx₁) :=
      mem_excludeWebpack_of_ne h₁ (by decide)
    have hcond : (excludeWebpack (detectToolsRaw ctx₁)).contains "biome" = true :=
      contains_iff_mem.mpr hbz
    constructor
    · intro hmem
      unfold detectTools supersedeTools excludeEslintPrettier at hmem
      rw [if_pos hcond] at hmem
      have h2 := (List.mem_filter.mp hmem).2
      simp at h2
    · intro hmem
      unfold detectTools supersedeTools excludeEslintPrettier at hmem
      rw [if_pos hcond] at hmem
      have h2 := (List.mem_filter.mp hmem).2
      simp at h2
  · have hz : excludeWebpack (detectToolsRaw ctx₂) =
        (detectToolsRaw ctx₂).filter (fun t => t != "webpack") := by
      unfold excludeWebpack
      have hcond : ((detectToolsRaw ctx₂).contains "turbopack" &&
          (detectToolsRaw ctx₂).contains "webpack") = true := by
        rw [Bool.and_eq_true]
        exact ⟨contains_iff_mem.mpr h₂, contains_iff_mem.mpr h₃⟩
      rw [if_pos hcond]
    constructor
    · show "turbopack" ∈ excludeEslintPrettier (excludeWebpack (detectToolsRaw ctx₂))
      rw [hz]
      exact mem_excludeEslintPrettier_of_ne
        (List.mem_filter.mpr ⟨h₂, by decide⟩) (by decide)
    · intro hmem
      have hmem2 : "webpack" ∈ excludeWebpack (detectToolsRaw ctx₂) :=
        mem_of_mem_excludeEslintPrettier hmem
      rw [hz] at hmem2
      have h2 := (List.mem_filter.mp hmem2).2
      simp at h2

/-- Witness for C7: a context with a `biome.json` plus eslint/prettier
configs, and a context with a webpack config plus a `turbopack` dependency. -/
theorem c7_witness :
    (("eslint" ∉ detectTools ⟨fun s => ["biome.json", ".eslintrc", ".prettierrc"].contains s, []⟩ ∧
      "prettier" ∉ detectTools ⟨fun s => ["biome.json", ".eslintrc", ".prettierrc"].contains s, []⟩) ∧
     ("turbopack" ∈ detectTools ⟨fun s => ["webpack.config.js"].contains s, ["turbopack"]⟩ ∧
      "webpack" ∉ detectTools ⟨fun s => ["webpack.config.js"].contains s, ["turbopack"]⟩)) :=
  c7_supersession_outcomes _ _ (by decide) (by decide) (by decide)

theorem languageFilesLoop_eq_filter (ctx : DetectionContext) (files : List String) :
    languageFilesLoop ctx files =
      (files.filter (fun f => !(f.toList.contains '*'))).any ctx.fs := by
  induction files with
  | nil => rfl
  | cons f rest ih =>
    by_cases hg : '*' ∈ f.data
    · simp [languageFilesLoop, hg, List.filter_cons, ih]
    · by_cases hf : ctx.fs f = true
      · simp [languageFilesLoop, hg, hf, List.filter_cons]
      · simp [languageFilesLoop, hg, hf, List.filter_cons, ih]

theorem mem_detectLanguages {ctx : DetectionContext} {a : String} :
    a ∈ detectLanguages ctx ↔
      ∃ p, p ∈ LANGUAGE_PATTERNS ∧ matchesLanguagePattern p ctx = true ∧ p.name = a := by
  unfold detectLanguages
  simp only [List.mem_map, List.mem_filter]
  constructor
  · rintro ⟨p, ⟨hp, hm⟩, hn⟩
    exact ⟨p, hp, hm, hn⟩
  · rintro ⟨p, hp, hm, hn⟩
    exact ⟨p, ⟨hp, hm⟩, hn⟩

theorem csharp_pattern_no_match (ctx : DetectionContext) :
    matchesLanguagePattern { name := "csharp", files := some ["*.csproj", "*.sln"] } ctx = false := by
  have h1 : ("*.csproj" : String).toList.contains '*' = true := by decide
  have h2 : ("*.sln" : String).toList.contains '*' = true := by decide
  simp [matchesLanguagePattern, languageFilesClause, languageFilesLoop, h1, h2, hasAnyDependency]

theorem swift_pattern_match (ctx : DetectionContext) :
    matchesLanguagePattern
      { name := "swift", files := some ["Package.swift", "*.xcodeproj", "*.xcworkspace"] } ctx =
      ctx.fs "Package.swift" := by
  have h0 : ("Package.swift" : String).toList.contains '*' = false := by decide
  have h1 : ("*.xcodeproj" : String).toList.contains '*' = true := by decide
  have h2 : ("*.xcworkspace" : String).toList.contains '*' = true := by decide
  by_cases hf : ctx.fs "Package.swift" = true
  · simp [matchesLanguagePattern, languageFilesClause, languageFilesLoop, h0, h1, h2, hf]
  · have hf' : ctx.fs "Package.swift" = false := by
      cases h : ctx.fs "Package.swift"
      · rfl
      · exact absurd h hf
    simp [matchesLanguagePattern, languageFilesClause, languageFilesLoop, h0, h1, h2, hf',
      hasAnyDependency]

/-- C9: in the language detector, a marker path containing a glob wildcard
never causes a rule to match — a rule's file clause is equivalent to the same
clause with all glob paths removed, dependency clauses untouched. In
particular `csharp`, whose marker paths are all glob-style, is never
detected, and `swift` is detected exactly when the literal `Package.swift`
exists. -/
theorem c9_glob_markers_never_match (ctx : DetectionContext) :
    (∀ (p : LanguagePattern) (files : List String), p.files = some files →
      matchesLanguagePattern p ctx =
        ((files.filter (fun f => !(f.toList.contains '*'))).any ctx.fs ||
         hasAnyDependency ctx p.dependencies)) ∧
    "csharp" ∉ detectLanguages ctx ∧
    ("swift" ∈ detectLanguages ctx ↔ ctx.fs "Package.swift" = true) := by
  refine ⟨?_, ?_, ?_⟩
  · intro p files hf
    simp [matchesLanguagePattern, languageFilesClause, hf, languageFilesLoop_eq_filter]
  · intro hmem
    rw [mem_detectLanguages] at hmem
    obtain ⟨p, hp, hm, hn⟩ := hmem
    fin_cases hp <;>
      first
        | exact absurd hn (by decide)
        | (rw [csharp_pattern_no_match] at hm
           exact absurd hm (by decide))
  · constructor
    · intro hmem
      rw [mem_detectLanguages] at hmem
      obtain ⟨p, hp, hm, hn⟩ := hmem
      fin_cases hp <;>
        first
          | exact absurd hn (by decide)
          | (rw [swift_pattern_match] at hm
             exact hm)
    · intro hf
      rw [mem_detectLanguages]
      refine ⟨{ name := "swift", files := some ["Package.swift", "*.xcodeproj", "*.xcworkspace"] },
        by decide, ?_, rfl⟩
      rw [swift_pattern_match]
      exact hf

/-- Witness for C9: a context whose filesystem has `Package.swift` only. -/
theorem c9_witness :
    matchesLanguagePattern
      { name := "swift", files := some ["Package.swift", "*.xcodeproj", "*.xcworkspace"] }
      ⟨fun s => ["Package.swift"].contains s, []⟩ =
      (((["Package.swift", "*.xcodeproj", "*.xcworkspace"] : List String).filter
          (fun f => !(f.toList.contains '*'))).any (fun s => ["Package.swift"].contains s) ||
       hasAnyDependency ⟨fun s => ["Package.swift"].contains s, []⟩ none) ∧
    "csharp" ∉ detectLanguages ⟨fun s => ["Package.swift"].contains s, []⟩ :=
  ⟨(c9_glob_markers_never_match _).1 _ _ rfl, (c9_glob_markers_never_match _).2.1⟩

theorem charIndexOf_eq_none {l : List Char} {c : Char} :
    charIndexOf l c = none ↔ c ∉ l := by
  induction l with
  | nil => simp [charIndexOf]
  | cons x xs ih =>
    by_cases hx : x = c
    · subst hx
      simp [charIndexOf]
    · rw [charIndexOf, if_neg hx]
      constructor
      · intro h
        have h0 : charIndexOf xs c = none := by
          cases hidx : charIndexOf xs c with
          | none => rfl
          | some i =>
            rw [hidx] at h
            simp at h
        intro hmem
        rcases List.mem_cons.mp hmem with rfl | hmem
        · exact hx rfl
        · exact (ih.mp h0) hmem
      · intro hmem
        have hnx : c ∉ xs := fun h => hmem (List.mem_cons_of_mem _ h)
        rw [ih.mpr hnx]
        rfl

/-- C10: `parseSkillRef` splits a reference at its first `@` — the source is
the prefix before it (containing no `@`), the skill is everything after it,
and `source ++ "@" ++ skill` reconstructs the reference; a reference without
`@` maps to itself as source with an empty skill. -/
theorem c10_parseSkillRef_split (ref : List Char) :
    ('@' ∈ ref →
      (parseSkillRef ref).1 ++ '@' :: (parseSkillRef ref).2 = ref ∧
      '@' ∉ (parseSkillRef ref).1) ∧
    ('@' ∉ ref → parseSkillRef ref = (ref, [])) := by
  induction ref with
  | nil =>
    constructor
    · intro h
      exact absurd h (List.not_mem_nil _)
    · intro _
      rfl
  | cons c cs ih =>
    by_cases hc : c = '@'
    · subst hc
      constructor
      · intro _
        constructor
        · simp [parseSkillRef, charIndexOf]
        · simp [parseSkillRef, charIndexOf]
      · intro hnot
        exact absurd (List.mem_cons_self _ _) hnot
    · cases hidx : charIndexOf cs '@' with
      | none =>
        have hnm : '@' ∉ cs := charIndexOf_eq_none.mp hidx
        constructor
        · intro hmem
          rcases List.mem_cons.mp hmem with h | h
          · exact absurd h.symm hc
          · exact absurd h hnm
        · intro _
          simp [parseSkillRef, charIndexOf, hc, hidx]
      | some i =>
        have hmm : '@' ∈ cs := by
          by_contra hn
          rw [charIndexOf_eq_none.mpr hn] at hidx
          cases hidx
        obtain ⟨hrec, hnmem⟩ := ih.1 hmm
        have hps : parseSkillRef cs = (cs.take i, cs.drop (i + 1)) := by
          simp [parseSkillRef, hidx]
        constructor
        · intro _
          have hpc : parseSkillRef (c :: cs) =
              ((c :: cs).take (i + 1), (c :: cs).drop (i + 2)) := by
            simp [parseSkillRef, charIndexOf, hc, hidx]
          rw [hpc]
          constructor
          · show (c :: cs.take i) ++ '@' :: cs.drop (i + 1) = c :: cs
            rw [hps] at hrec
            rw [List.cons_append, hrec]
          · show '@' ∉ c :: cs.take i
            rw [hps] at hnmem
            intro hmem2
            rcases List.mem_cons.mp hmem2 with h | h
            · exact hc h.symm
            · exact hnmem h
        · intro hnot
          exact absurd (List.mem_cons_of_mem _ hmm) hnot

/-- Witness for C10 at a concrete reference containing `@`. -/
theorem c10_witness :
    (parseSkillRef ("vercel/turborepo@turborepo".toList)).1 ++
        '@' :: (parseSkillRef ("vercel/turborepo@turborepo".toList)).2 =
      "vercel/turborepo@turborepo".toList ∧
    '@' ∉ (parseSkillRef ("vercel/turborepo@turborepo".toList)).1 :=
  (c10_parseSkillRef_split _).1 (by decide)

theorem lowerChar_eq_dash {c : Char} (h : lowerChar c = '-') : c = '-' := by
  unfold lowerChar at h
  split at h <;> first | exact h | exact absurd h (by decide)

theorem lowerList_not_mem_dash {s : List Char} (h : '-' ∉ s) : '-' ∉ lowerList s := by
  intro hm
  obtain ⟨c, hc, he⟩ := List.mem_map.mp hm
  exact h (lowerChar_eq_dash he ▸ hc)

/-- C5: for a term without a hyphen, `isRelevantSkill` is decided by the
word-boundary test: it rejects whenever no occurrence of the (lowercased)
term in the (lowercased) candidate is bounded on both sides by non-letter
characters or the string edges — in particular when the term occurs only as
an infix of a longer word — and accepts whenever such a bounded occurrence
exists and no ecosystem veto applies. -/
theorem c5_word_boundary_no_hyphen (skillRef term : String) (fws : List String)
    (hterm : '-' ∉ term.toList) :
    (wordBoundaryMatch (lowerStr skillRef).toList (lowerStr term).toList = false →
      isRelevantSkill skillRef term fws = false) ∧
    (wordBoundaryMatch (lowerStr skillRef).toList (lowerStr term).toList = true →
      ecosystemsOk (lowerStr skillRef) fws = true →
      isRelevantSkill skillRef term fws = true) := by
  have hdash : '-' ∉ (lowerStr term).data := lowerList_not_mem_dash hterm
  constructor
  · intro hwb
    have hwb' : wordBoundaryMatch (lowerStr skillRef).data (lowerStr term).data = false := hwb
    simp [isRelevantSkill, hwb', hdash]
  · intro hwb heco
    have hwb' : wordBoundaryMatch (lowerStr skillRef).data (lowerStr term).data = true := hwb
    simp [isRelevantSkill, hwb', heco]

/-- Witness for C5: `go` as a bare infix of `golang` is rejected; `go` as a
standalone path segment is accepted. -/
theorem c5_witness :
    isRelevantSkill "acme/golang@tips" "go" [] = false ∧
    isRelevantSkill "acme/go@basics" "go" [] = true :=
  ⟨(c5_word_boundary_no_hyphen "acme/golang@tips" "go" [] (by decide)).1 (by decide),
   (c5_word_boundary_no_hyphen "acme/go@basics" "go" [] (by decide)).2 (by decide) (by decide)⟩

/-- Counterexample to C1 as stated: the candidate `foo/expo@skill` carries
the `expo` marker of the `expo` ecosystem, the detected-frameworks list
`["react-native"]` does not contain the ecosystem identifier `expo`, the term
matches — yet `isRelevantSkill` accepts, because `react-native` is itself
listed among the `expo` ecosystem's markers. -/
theorem c1_counterexample :
    ("expo", ["expo", "react-native", "mobile"]) ∈ ECOSYSTEM_MARKERS ∧
    "expo" ∈ (["expo", "react-native", "mobile"] : List String) ∧
    containsSubStr (lowerStr "foo/expo@skill") "expo" = true ∧
    "expo" ∉ (["react-native"] : List String) ∧
    isRelevantSkill "foo/expo@skill" "expo" ["react-native"] = true := by
  decide

/-- C1 (amended): for every ecosystem of the marker table one of whose marker
substrings occurs in the lowercased candidate, `isRelevantSkill` rejects the
candidate — whatever the term-match outcome — unless the detected-frameworks
list contains the ecosystem's own identifier or contains a framework whose
lowercase form is itself one of that ecosystem's markers. -/
theorem c1_ecosystem_veto (skillRef term : String) (fws : List String)
    (eco : String) (markers : List String)
    (hin : (eco, markers) ∈ ECOSYSTEM_MARKERS)
    (hmark : markers.any (fun m => containsSubStr (lowerStr skillRef) m) = true)
    (hnot : fws.any (fun fw => fw == eco || markers.contains (lowerStr fw)) = false) :
    isRelevantSkill skillRef term fws = false := by
  have heco : ecosystemsOk (lowerStr skillRef) fws = false := by
    unfold ecosystemsOk
    refine List.all_eq_false.mpr ⟨(eco, markers), hin, ?_⟩
    rw [List.any_eq_false] at hnot
    simp at hnot
    simpa [hmark] using hnot
  simp [isRelevantSkill, heco]

/-- Witness for C1 (amended): a Flutter-marked candidate is rejected for a
project with no detected frameworks. -/
theorem c1_witness :
    isRelevantSkill "acme/flutter-tips@pkg" "flutter" [] = false :=
  c1_ecosystem_veto "acme/flutter-tips@pkg" "flutter" [] "flutter" ["flutter", "dart"]
    (by decide) (by decide) (by decide)

/-- C8: when `package.json` is absent or unparseable, `detect` still returns
a report (no error path exists in the model): the context's dependency
mapping is empty, every dependency clause of every matcher evaluates to
no-match — so each matcher reduces to its file clauses — and the report is
the one computed for the same filesystem with no manifest at all. -/
theorem c8_manifest_failure_fallback (env : Env)
    (h : env.manifestFile = none ∨ env.manifestFile = some none) :
    (mkContext env).allDependencies = [] ∧
    (∀ names : List String, hasAnyDependency (mkContext env) (some names) = false) ∧
    detect env = detect { fs := env.fs, manifestFile := none } ∧
    (∀ p : FrameworkPattern, matchesPattern p (mkContext env) =
      (existsAllFiles (mkContext env) p.requiredFiles ||
       existsAnyFile (mkContext env) p.configFiles)) ∧
    (∀ p : ToolPattern, matchesToolPattern p (mkContext env) =
      (existsAnyFile (mkContext env) p.configFiles ||
       existsAnyFile (mkContext env) p.files)) ∧
    (∀ p : ToolPattern, matchesTestingPattern p (mkContext env) =
      (existsAnyFile (mkContext env) p.configFiles ||
       existsAnyFile (mkContext env) p.files)) ∧
    (∀ p : LanguagePattern, matchesLanguagePattern p (mkContext env) =
      languageFilesClause (mkContext env) p.files) := by
  have hload : loadPackageJson env = none := by
    rcases h with h | h <;> simp [loadPackageJson, h]
  have hdeps : (mkContext env).allDependencies = [] := by
    simp [mkContext, hload, mergedDependencies]
  have hdep : ∀ names : List String, hasAnyDependency (mkContext env) (some names) = false := by
    intro names
    simp [hasAnyDependency, hdeps]
  refine ⟨hdeps, hdep, ?_, ?_, ?_, ?_, ?_⟩
  · have hctx : mkContext env = mkContext { fs := env.fs, manifestFile := none } := by
      have hr : loadPackageJson { fs := env.fs, manifestFile := none } = none := rfl
      simp [mkContext, hload, hr]
    unfold detect
    rw [hctx]
  · intro p
    cases hd : p.dependencies with
    | none => simp [matchesPattern, hasAnyDependency, hd]
    | some names => simp [matchesPattern, hd, hdep names]
  · intro p
    cases hd : p.dependencies with
    | none => simp [matchesToolPattern, hasAnyDependency, hd]
    | some names => simp [matchesToolPattern, hd, hdep names]
  · intro p
    cases hd : p.dependencies with
    | none => simp [matchesTestingPattern, hasAnyDependency, hd]
    | some names => simp [matchesTestingPattern, hd, hdep names]
  · intro p
    cases hd : p.dependencies with
    | none => simp [matchesLanguagePattern, hasAnyDependency, hd]
    | some names => simp [matchesLanguagePattern, hd, hdep names]

/-- Witness for C8: a Go project whose `package.json` fails to parse yields
the same report as one with no manifest, from an empty dependency mapping. -/
theorem c8_witness :
    (mkContext ⟨fun s => ["go.mod"].contains s, some none⟩).allDependencies = [] ∧
    detect ⟨fun s => ["go.mod"].contains s, some none⟩ =
      detect ⟨fun s => ["go.mod"].contains s, none⟩ :=
  ⟨(c8_manifest_failure_fallback ⟨fun s => ["go.mod"].contains s, some none⟩ (Or.inr rfl)).1,
   (c8_manifest_failure_fallback ⟨fun s => ["go.mod"].contains s, some none⟩ (Or.inr rfl)).2.2.1⟩

theorem list_ne_nil_isEmpty {l : List String} (h : l ≠ []) : l.isEmpty = false := by
  cases l with
  | nil => exact absurd rfl h
  | cons x xs => rfl

theorem mem_detect_searchTerms {env : Env} {a : String} :
    a ∈ (detect env).searchTerms ↔
      a ∈ (detect env).frameworks ∨ a ∈ (detect env).languages ∨
      a ∈ (detect env).tools ∨ a ∈ (detect env).testing := by
  rw [detect_searchTerms_def, mem_sortStrings, mem_dedupFirst]
  simp [List.mem_append, or_assoc]

theorem detectLanguages_name_mem {ctx : DetectionContext} {a : String}
    (h : a ∈ detectLanguages ctx) : a ∈ LANGUAGE_PATTERNS.map (fun p => p.name) := by
  unfold detectLanguages at h
  obtain ⟨p, hp, hn⟩ := List.mem_map.mp h
  exact List.mem_map.mpr ⟨p, (List.mem_filter.mp hp).1, hn⟩

theorem detectTesting_name_mem {ctx : DetectionContext} {a : String}
    (h : a ∈ detectTesting ctx) : a ∈ TESTING_PATTERNS.map (fun p => p.name) := by
  unfold detectTesting at h
  obtain ⟨p, hp, hn⟩ := List.mem_map.mp h
  exact List.mem_map.mpr ⟨p, (List.mem_filter.mp hp).1, hn⟩

theorem planned_of_frameworks {d : DetectionResult} (h : d.frameworks ≠ []) :
    plannedSearchTerms d =
      (afterCuratedTerms d).filter (fun term => term != "javascript" && term != "typescript") := by
  unfold plannedSearchTerms
  rw [list_ne_nil_isEmpty h]
  rfl

theorem planned_no_frameworks_ts {d : DetectionResult} (h : d.frameworks = [])
    (hts : "typescript" ∈ afterCuratedTerms d) :
    plannedSearchTerms d = (afterCuratedTerms d).filter (fun term => term != "javascript") := by
  unfold plannedSearchTerms
  rw [h, contains_iff_mem.mpr hts]
  rfl

theorem planned_no_frameworks_no_ts {d : DetectionResult} (h : d.frameworks = [])
    (hts : "typescript" ∉ afterCuratedTerms d) :
    plannedSearchTerms d = afterCuratedTerms d := by
  unfold plannedSearchTerms
  have hc : (afterCuratedTerms d).contains "typescript" = false := by
    cases hcc : (afterCuratedTerms d).contains "typescript"
    · rfl
    · exact absurd (contains_iff_mem.mp hcc) hts
  rw [h, hc]
  rfl

theorem mem_afterCuratedTerms {d : DetectionResult} {a : String} :
    a ∈ afterCuratedTerms d ↔ a ∈ d.searchTerms ∧ a ∉ curatedKeys := by
  unfold afterCuratedTerms
  rw [List.mem_filter]
  constructor
  · rintro ⟨h1, h2⟩
    refine ⟨h1, fun hm => ?_⟩
    rw [contains_iff_mem.mpr hm] at h2
    simp at h2
  · rintro ⟨h1, h2⟩
    refine ⟨h1, ?_⟩
    have hc : curatedKeys.contains a = false := by
      cases hcc : curatedKeys.contains a
      · rfl
      · exact absurd (contains_iff_mem.mp hcc) h2
    rw [hc]
    rfl

theorem ts_mem_afterCuratedTerms {d : DetectionResult} :
    "typescript" ∈ afterCuratedTerms d ↔ "typescript" ∈ d.searchTerms := by
  rw [mem_afterCuratedTerms]
  constructor
  · exact (·.1)
  · exact fun h => ⟨h, by decide⟩

theorem planned_subset_afterCurated {d : DetectionResult} {a : String}
    (h : a ∈ plannedSearchTerms d) : a ∈ afterCuratedTerms d := by
  unfold plannedSearchTerms at h
  split at h
  · exact List.mem_of_mem_filter h
  · split at h
    · exact List.mem_of_mem_filter h
    · exact h

theorem curatedLookup_some_cases {t : String} {refs : List String}
    (h : curatedLookup t = some refs) :
    t ∈ curatedKeys ∧ (t = "nextjs" ∨ t = "react" ∨ t = "turborepo") := by
  unfold curatedLookup at h
  cases hf : CURATED_SKILLS.find? (fun e => e.1 == t) with
  | none =>
    rw [hf] at h
    cases h
  | some e =>
    have he2 : e ∈ CURATED_SKILLS := List.mem_of_find?_eq_some hf
    have heq : e.1 = t := by simpa using List.find?_some hf
    refine ⟨heq ▸ List.mem_map.mpr ⟨e, he2, rfl⟩, ?_⟩
    fin_cases he2 <;> subst heq <;> simp

theorem curatedLookup_none_not_mem {t : String} (h : curatedLookup t = none) :
    t ∉ curatedKeys := by
  unfold curatedLookup at h
  cases hf : CURATED_SKILLS.find? (fun e => e.1 == t) with
  | some e =>
    rw [hf] at h
    cases h
  | none =>
    have hall := List.find?_eq_none.mp hf
    intro hmem
    obtain ⟨e, he, hn⟩ := List.mem_map.mp hmem
    exact (hall e he) (by simp [hn])

theorem mem_foldl_curatedStep_of_acc (terms : List String) :
    ∀ {acc : List String} {r : String}, r ∈ acc → r ∈ terms.foldl curatedStep acc := by
  induction terms with
  | nil => exact fun h => h
  | cons t ts ih =>
    intro acc r h
    rw [List.foldl_cons]
    apply ih
    unfold curatedStep
    cases hl : curatedLookup t with
    | none => exact h
    | some refs => exact List.mem_append_left _ h

theorem mem_foldl_curatedStep (terms : List String) :
    ∀ {t : String} {refs : List String} {r : String} (acc : List String),
      t ∈ terms → curatedLookup t = some refs → r ∈ refs →
      r ∈ terms.foldl curatedStep acc := by
  induction terms with
  | nil =>
    intro t refs r acc ht
    cases ht
  | cons x xs ih =>
    intro t refs r acc ht hl hr
    rw [List.foldl_cons]
    rcases List.mem_cons.mp ht with rfl | hts
    · apply mem_foldl_curatedStep_of_acc
      unfold curatedStep
      rw [hl]
      exact List.mem_append_right _ hr
    · exact ih _ hts hl hr

/-- Counterexample to C2 as stated: in a Next.js project (a `next.config.js`
plus a `package.json` with no dependencies), the detected term `javascript`
has no curated entry, yet no external search is planned for it either — the
generic language term is silently dropped because a framework was detected. -/
theorem c2_counterexample :
    "javascript" ∈
        (detect ⟨fun s => ["next.config.js", "package.json"].contains s, none⟩).searchTerms ∧
    curatedLookup "javascript" = none ∧
    "javascript" ∉
        plannedSearchTerms
          (detect ⟨fun s => ["next.config.js", "package.json"].contains s, none⟩) := by
  decide

/-- C2 (amended): for every detected search term, exactly one of three things
happens: the term has a curated entry, whose references are all added to the
result set and which is excluded from the search pass; or it is one of the
generic language terms dropped by the language-term filtering (`javascript`
or `typescript` when a framework was detected, `javascript` when
`typescript` is among the terms and no framework was) and is neither
curated nor searched; or an external search is planned for it. -/
theorem c2_curated_override (env : Env) (term : String)
    (hmem : term ∈ (detect env).searchTerms) :
    (∃ refs, curatedLookup term = some refs ∧
       (∀ r ∈ refs, r ∈ curatedRefs (detect env)) ∧
       term ∉ plannedSearchTerms (detect env)) ∨
    (curatedLookup term = none ∧ skippedLanguageTerm (detect env) term ∧
       term ∉ plannedSearchTerms (detect env)) ∨
    (curatedLookup term = none ∧ ¬ skippedLanguageTerm (detect env) term ∧
       term ∈ plannedSearchTerms (detect env)) := by
  cases hl : curatedLookup term with
  | some refs =>
    left
    refine ⟨refs, rfl, ?_, ?_⟩
    · intro r hr
      obtain ⟨hkey, hcases⟩ := curatedLookup_some_cases hl
      have hunion := mem_detect_searchTerms.mp hmem
      have hft : term ∈ (detect env).frameworks ++ (detect env).tools := by
        rcases hunion with h | h | h | h
        · exact List.mem_append_left _ h
        · exfalso
          have hnames : term ∈ LANGUAGE_PATTERNS.map (fun p => p.name) :=
            detectLanguages_name_mem h
          rcases hcases with rfl | rfl | rfl <;> revert hnames <;> decide
        · exact List.mem_append_right _ h
        · exfalso
          have hnames : term ∈ TESTING_PATTERNS.map (fun p => p.name) :=
            detectTesting_name_mem h
          rcases hcases with rfl | rfl | rfl <;> revert hnames <;> decide
      exact mem_foldl_curatedStep _ [] hft hl hr
    · intro hp
      obtain ⟨hkey, _⟩ := curatedLookup_some_cases hl
      exact (mem_afterCuratedTerms.mp (planned_subset_afterCurated hp)).2 hkey
  | none =>
    have hnk : term ∉ curatedKeys := curatedLookup_none_not_mem hl
    have hAC : term ∈ afterCuratedTerms (detect env) := mem_afterCuratedTerms.mpr ⟨hmem, hnk⟩
    by_cases hfw : (detect env).frameworks = []
    · by_cases hts : "typescript" ∈ (detect env).searchTerms
      · have hpl := planned_no_frameworks_ts hfw (ts_mem_afterCuratedTerms.mpr hts)
        by_cases hjs : term = "javascript"
        · right; left
          refine ⟨rfl, Or.inr ⟨hfw, hjs, hts⟩, ?_⟩
          rw [hpl]
          intro hp
          have h2 := (List.mem_filter.mp hp).2
          rw [hjs] at h2
          simp at h2
        · right; right
          refine ⟨rfl, ?_, ?_⟩
          · intro hsk
            rcases hsk with ⟨hne, _⟩ | ⟨_, hjs2, _⟩
            · exact hne hfw
            · exact hjs hjs2
          · rw [hpl]
            refine List.mem_filter.mpr ⟨hAC, ?_⟩
            simpa using hjs
      · have hpl := planned_no_frameworks_no_ts hfw
          (fun hm => hts (ts_mem_afterCuratedTerms.mp hm))
        right; right
        refine ⟨rfl, ?_, ?_⟩
        · intro hsk
          rcases hsk with ⟨hne, _⟩ | ⟨_, _, hts2⟩
          · exact hne hfw
          · exact hts hts2
        · rw [hpl]
          exact hAC
    · have hpl := planned_of_frameworks hfw
      by_cases hjs : term = "javascript" ∨ term = "typescript"
      · right; left
        refine ⟨rfl, Or.inl ⟨hfw, hjs⟩, ?_⟩
        rw [hpl]
        intro hp
        have h2 := (List.mem_filter.mp hp).2
        rcases hjs with rfl | rfl <;> simp at h2
      · right; right
        refine ⟨rfl, ?_, ?_⟩
        · intro hsk
          rcases hsk with ⟨_, hj⟩ | ⟨hfw2, _, _⟩
          · exact hjs hj
          · exact hfw hfw2
        · rw [hpl]
          refine List.mem_filter.mpr ⟨hAC, ?_⟩
          rw [not_or] at hjs
          simp [hjs.1, hjs.2]

/-- Witness for C2 (amended) at a concrete Go project: the term `go` falls
into the searched case. -/
theorem c2_witness :
    ((∃ refs, curatedLookup "go" = some refs ∧
        (∀ r ∈ refs, r ∈ curatedRefs (detect ⟨fun s => ["go.mod"].contains s, none⟩)) ∧
        "go" ∉ plannedSearchTerms (detect ⟨fun s => ["go.mod"].contains s, none⟩)) ∨
     (curatedLookup "go" = none ∧
        skippedLanguageTerm (detect ⟨fun s => ["go.mod"].contains s, none⟩) "go" ∧
        "go" ∉ plannedSearchTerms (detect ⟨fun s => ["go.mod"].contains s, none⟩)) ∨
     (curatedLookup "go" = none ∧
        ¬ skippedLanguageTerm (detect ⟨fun s => ["go.mod"].contains s, none⟩) "go" ∧
        "go" ∈ plannedSearchTerms (detect ⟨fun s => ["go.mod"].contains s, none⟩))) :=
  c2_curated_override ⟨fun s => ["go.mod"].contains s, none⟩ "go" (by decide)
